import Mathlib

set_option maxRecDepth 8000

/-!
Shallow embedding of the dia-batching-server price pipeline
(pendulum-chain/oracle-pallet, `src/dia-batching-server/src`).

Conventions of the embedding:
- `rust_decimal::Decimal` values are modelled as `Rat` (the spec's data model
  calls them "arbitrary-precision non-negative decimal"); the operations the
  code uses (`trunc`, `fract`, multiplication, `to_u128`, `checked_div`,
  comparisons) are modelled at that precision. The real `Decimal` carries a
  96-bit mantissa, so the source's multiplication by `10^12` panics once the
  product reaches `2^96` (integer parts above about `7.9e16`); the `Rat`
  model extends the converter beyond that point, and no theorem below relies
  on the `DecimalTooLarge` branch, which only an oversized modelled input can
  reach.
- `u128` is modelled as `Nat` with explicit `2 ^ 128` bounds where the code's
  width matters (`to_u128`, `saturating_add`).
- network calls (`PolygonClient::all_tickers`, `CoingeckoPriceApi::get_prices`,
  the AMPE GraphQL query, `BinancePriceApi::get_price`) are oracles: explicit
  function-valued parameters collected in the `Oracle` structure, so theorems
  quantify over every possible provider behaviour.
- `HashMap`s that the code builds by repeated `insert` are modelled as
  association lists with overwrite-on-insert (`insertA` / `lookupA`).
- the repository holds two variants of the custom-source registry
  (`api/custom.rs`, static, registering only `AmpePriceView`, and
  `api/custom/mod.rs`, registering `AmpePriceView` then `ArsBluePriceView`);
  we embed the registry of `api/custom/mod.rs`, which is the one the claims
  reference (`api/custom/arsb.rs`).
-/

namespace DiaOracle

/-! Data model (`src/dia-batching-server/src/types.rs`). -/

/-- `AssetSpecifier` from `types.rs`: identifies a specific asset. -/
structure AssetSpecifier where
  blockchain : String
  symbol : String
deriving DecidableEq, Repr

/-- `Quotation` from `types.rs`; `price` and `supply` are `Decimal`, modelled
as `Rat`; `time` is unix seconds. -/
structure Quotation where
  symbol : String
  name : String
  blockchain : Option String
  price : Rat
  supply : Rat
  time : Nat
deriving DecidableEq, Repr

/-- `CoinInfo` from `types.rs`: the published fixed-point record. -/
structure CoinInfo where
  symbol : String
  name : String
  blockchain : String
  supply : Nat
  last_update_timestamp : Nat
  price : Nat
deriving DecidableEq, Repr

/-! Model of the `rust_decimal` operations used by the converter
(`price_updater.rs`). -/

/-- `Decimal::trunc`: the integer part, rounding toward zero. -/
def dtrunc (q : Rat) : Rat := if 0 ≤ q then (⌊q⌋ : Rat) else (⌈q⌉ : Rat)

/-- `Decimal::fract`: the fractional part, `q - q.trunc()`. -/
def dfract (q : Rat) : Rat := q - dtrunc q

/-- `ToPrimitive::to_u128` on a `Decimal`: `none` for negative values and for
values that do not fit an unsigned 128-bit integer, otherwise the truncated
integer part. The bound is the numeral `2 ^ 128`. -/
def decToU128 (q : Rat) : Option Nat :=
  if 0 ≤ q ∧ q < 340282366920938463463374607431768211456 then some ⌊q⌋.toNat else none

/-- `u128::saturating_add`. -/
def u128SaturatingAdd (a b : Nat) : Nat := min (a + b) (2 ^ 128 - 1)

/-- `ConvertingError` from `price_updater.rs`. -/
inductive ConvertingError where
  | DecimalTooLarge
deriving DecidableEq, Repr

/-- `convert_decimal_to_u128` from `price_updater.rs`: scale the fractional
and integer parts by `10^12` separately, convert each to `u128`
(`DecimalTooLarge` if either fails), and return the saturating sum. Over the
`Rat` model of `Decimal` both multiplications are exact; the source's 96-bit
`Decimal` multiplication panics before a scaled component can reach `2^128`,
so the error branch is a fact of the widened model only. -/
def convert_decimal_to_u128 (input : Rat) : Except ConvertingError Nat :=
  match decToU128 (dfract input * 1000000000000) with
  | none => .error .DecimalTooLarge
  | some fract =>
    match decToU128 (dtrunc input * 1000000000000) with
    | none => .error .DecimalTooLarge
    | some trunc => .ok (u128SaturatingAdd trunc fract)

/-! Association lists with overwrite-on-insert, modelling the `HashMap`s
built by repeated `insert` in `storage.rs` and `polygon.rs`. -/

/-- `HashMap::insert`: overwrite the binding of `k` if present, else add it. -/
def insertA {α β : Type} [DecidableEq α] : List (α × β) → α → β → List (α × β)
  | [], k, v => [(k, v)]
  | (k', v') :: rest, k, v =>
      if k' = k then (k, v) :: rest else (k', v') :: insertA rest k v

/-- `HashMap::get`. -/
def lookupA {α β : Type} [DecidableEq α] : List (α × β) → α → Option β
  | [], _ => none
  | (k', v') :: rest, k => if k' = k then some v' else lookupA rest k

/-! Snapshot storage (`src/dia-batching-server/src/storage.rs`). -/

/-- `CoinInfoStorage`: the single map from `(blockchain, symbol)` to
`CoinInfo`. -/
structure CoinInfoStorage where
  currencies_by_blockchain_and_symbol : List ((String × String) × CoinInfo)
deriving DecidableEq, Repr

/-- The key under which `replace_currencies_by_symbols` files a record. -/
def coinKey (x : CoinInfo) : String × String := (x.blockchain, x.symbol)

/-- `CoinInfoStorage::replace_currencies_by_symbols`: build a brand-new map
from the given records (later records overwrite earlier ones with the same
key, as with `collect::<HashMap<_, _>>()`) and store it, discarding the old
map entirely. -/
def replace_currencies_by_symbols (_s : CoinInfoStorage) (currencies : List CoinInfo) :
    CoinInfoStorage :=
  { currencies_by_blockchain_and_symbol :=
      currencies.foldl (fun m x => insertA m (coinKey x) x) [] }

/-- `CoinInfoStorage::get_currencies_by_blockchains_and_symbols`: look up each
requested specifier in the current map, silently dropping absent keys. -/
def get_currencies_by_blockchains_and_symbols (s : CoinInfoStorage)
    (blockchain_and_symbols : List AssetSpecifier) : List CoinInfo :=
  blockchain_and_symbols.filterMap fun a =>
    lookupA s.currencies_by_blockchain_and_symbol (a.blockchain, a.symbol)

/-! Fiat conversion source (`src/dia-batching-server/src/api/polygon.rs`). -/

/-- `LastQuote` from `polygon.rs`: the most recent quote for a ticker. -/
structure LastQuote where
  a : Rat
  b : Rat
  t : Nat
deriving DecidableEq, Repr

/-- `PrevDayQuote` from `polygon.rs`: the previous day's bar for a ticker. -/
structure PrevDayQuote where
  c : Rat
  h : Rat
  l : Rat
  o : Rat
  v : Rat
  vw : Rat
deriving DecidableEq, Repr

/-- `Ticker` from `polygon.rs`. -/
structure Ticker where
  ticker_name : String
  updated : Nat
  last_quote : LastQuote
  prev_day : PrevDayQuote
deriving DecidableEq, Repr

/-- Rust `str::to_uppercase`, on the ASCII alphabet the code's identifiers
use (character-wise upper-casing). -/
def toUppercase (s : String) : String := String.mk (s.data.map Char.toUpper)

/-- `PolygonClient::currency_to_ticker`. -/
def currency_to_ticker (from_currency : String) : String := "C:" ++ from_currency ++ "USD"

/-- Rust `str::split(c)` on the underlying character list: the (non-empty)
list of chunks between occurrences of `c`. -/
def splitOnChar (c : Char) : List Char → List (List Char)
  | [] => [[]]
  | x :: xs =>
      if x = c then [] :: splitOnChar c xs
      else
        match splitOnChar c xs with
        | [] => [[x]]
        | y :: ys => (x :: y) :: ys

/-- `PolygonPriceApi::extract_source_currency`: accept only blockchain `FIAT`
(case-insensitively) and a symbol splitting on `-` into exactly two parts with
an upper-cased target of `USD`; return the upper-cased source currency. -/
def extract_source_currency (asset : AssetSpecifier) : Option String :=
  if toUppercase asset.blockchain ≠ "FIAT" then none
  else
    match splitOnChar '-' asset.symbol.data with
    | [from_currency, target_currency] =>
        if toUppercase (String.mk target_currency) ≠ "USD" then none
        else some (toUppercase (String.mk from_currency))
    | _ => none

/-- `PolygonPriceApi::is_supported`. -/
def polygon_is_supported (asset : AssetSpecifier) : Bool :=
  (extract_source_currency asset).isSome

/-- The body of the `for (ticker_name, ticker) in quotes` loop of
`PolygonPriceApi::get_prices`: zero or one quotations pushed for one returned
ticker. The price is the last quote's bid if strictly positive, otherwise the
previous day's close; a quotation is pushed unless that price equals zero. -/
def polygon_ticker_quotes (ticker_to_asset_map : List (String × AssetSpecifier)) (now : Nat)
    (p : String × Ticker) : List Quotation :=
  match lookupA ticker_to_asset_map p.1 with
  | some asset =>
      let symbol := asset.symbol
      let price := if 0 < p.2.last_quote.b then p.2.last_quote.b else p.2.prev_day.c
      if price = 0 then []
      else [{ symbol := symbol, name := symbol, blockchain := some "FIAT",
              price := price, supply := 0, time := now }]
  | none => []

/-- The request-building prefix of `PolygonPriceApi::get_prices`: collect the
supported assets into a reverse ticker-to-asset map and the ordered list of
requested ticker names. -/
def polygon_request (assets : List AssetSpecifier) :
    List (String × AssetSpecifier) × List String :=
  assets.foldl (fun acc asset =>
      match extract_source_currency asset with
      | some currency =>
          let source_currency_ticker := currency_to_ticker currency
          (insertA acc.1 source_currency_ticker asset, acc.2 ++ [source_currency_ticker])
      | none => acc) (([] : List (String × AssetSpecifier)), ([] : List String))

/-- `PolygonPriceApi::get_prices`. `all_tickers` is the oracle for
`PolygonClient::all_tickers` (one batched network request); `now` models
`chrono::Utc::now()`. If `C:USDUSD` was requested a fixed price-1 quotation
is pushed first; each returned ticker then contributes via
`polygon_ticker_quotes`. -/
def polygon_get_prices (all_tickers : List String → Except String (List (String × Ticker)))
    (now : Nat) (assets : List AssetSpecifier) : Except String (List Quotation) :=
  let req := polygon_request assets
  match all_tickers req.2 with
  | .error e => .error e
  | .ok quotes =>
      let usd_prices : List Quotation :=
        if req.2.contains (currency_to_ticker "USD") then
          [{ symbol := "USD-USD", name := "USD-USD", blockchain := some "FIAT",
             price := 1, supply := 0, time := now }]
        else []
      .ok (quotes.foldl (fun prices p => prices ++ polygon_ticker_quotes req.1 now p) usd_prices)

/-! Custom/direct sources (`src/dia-batching-server/src/api/custom/mod.rs`,
`ampe.rs`, `arsb.rs`) and the provider oracles. -/

/-- The two entries of the `CustomPriceApi` registry of `api/custom/mod.rs`,
in registration order. -/
inductive CustomApi where
  | ampe
  | arsb
deriving DecidableEq, Repr

/-- The registration order of `CustomPriceApi::new`. -/
def customApis : List CustomApi := [.ampe, .arsb]

/-- The `AssetCompatibility::supports` predicate of each registered view
(`AmpePriceView::supports`, `ArsBluePriceView::supports`). -/
def customSupports : CustomApi → AssetSpecifier → Bool
  | .ampe, a => toUppercase a.blockchain == toUppercase "Amplitude" && toUppercase a.symbol == toUppercase "AMPE"
  | .arsb, a => toUppercase a.blockchain == toUppercase "FIAT" && toUppercase a.symbol == toUppercase "ARS-USD"

/-- `CustomPriceApi::get_supported_api`: the first registered view supporting
the asset. -/
def get_supported_api (asset : AssetSpecifier) : Option CustomApi :=
  customApis.find? (fun api => customSupports api asset)

/-- `CustomPriceApi::is_supported`. -/
def custom_is_supported (asset : AssetSpecifier) : Bool :=
  (get_supported_api asset).isSome

/-- The upstream provider responses of one cycle, as oracles: the polygon
ticker-snapshot call, the coingecko batched price call (taken at the level of
`CoingeckoPriceApi::get_prices`), the AMPE GraphQL price, the Binance
`USDTARS` quote, and the current unix time. -/
structure Oracle where
  all_tickers : List String → Except String (List (String × Ticker))
  coingecko_prices : List AssetSpecifier → Except String (List Quotation)
  ampe_eth_price : Except String Rat
  binance_usdt_ars : Except String Quotation
  now : Nat

/-- `Decimal::checked_div`: `none` exactly on a zero divisor. -/
def checked_div (a b : Rat) : Option Rat := if b = 0 then none else some (a / b)

/-- `AmpePriceView::get_price`: wrap the fetched `eth_price` into a
quotation. -/
def ampe_get_price (o : Oracle) : Except String Quotation :=
  match o.ampe_eth_price with
  | .error e => .error e
  | .ok price =>
      .ok { symbol := "AMPE", name := "AMPE", blockchain := some "Amplitude",
            price := price, supply := 0, time := o.now }

/-- `ArsBluePriceView::get_price`: fetch the Binance `USDTARS` price and
invert it with `checked_div`, falling back to zero on division by zero. -/
def arsb_get_price (o : Oracle) : Except String Quotation :=
  match o.binance_usdt_ars with
  | .error e => .error e
  | .ok binance_quote =>
      let usdt_ars_price := binance_quote.price
      let ars_usdt_price := (checked_div 1 usdt_ars_price).getD 0
      .ok { symbol := "ARS-USD", name := "ARS-USD", blockchain := some "FIAT",
            price := ars_usdt_price, supply := 0, time := o.now }

/-- `CustomPriceApi::get_price`: dispatch to the first supporting view, or a
typed `Unsupported asset` error. -/
def custom_get_price (o : Oracle) (asset : AssetSpecifier) : Except String Quotation :=
  match get_supported_api asset with
  | none => .error "Unsupported asset"
  | some .ampe => ampe_get_price o
  | some .arsb => arsb_get_price o

/-! Dispatcher (`src/dia-batching-server/src/api/mod.rs`). -/

/-- `PriceApiImpl::get_fiat_quotations`: filter for blockchain `FIAT`
(upper-cased) and delegate to the polygon source. -/
def get_fiat_quotations (o : Oracle) (assets : List AssetSpecifier) :
    Except String (List Quotation) :=
  let fiat_assets := assets.filter (fun asset => toUppercase asset.blockchain == "FIAT")
  polygon_get_prices o.all_tickers o.now fiat_assets

/-- `PriceApiImpl::get_crypto_quotations`: filter for blockchain `CRYPTO`
(upper-cased) and delegate to the coingecko source (oracle). -/
def get_crypto_quotations (o : Oracle) (assets : List AssetSpecifier) :
    Except String (List Quotation) :=
  let crypto_assets := assets.filter (fun asset => toUppercase asset.blockchain == "CRYPTO")
  o.coingecko_prices crypto_assets

/-- The `for asset in custom_assets` loop of
`PriceApiImpl::get_custom_quotations`: the `?` operator aborts the whole loop
on the first failing asset. -/
def custom_quotations_loop (o : Oracle) : List AssetSpecifier → Except String (List Quotation)
  | [] => .ok []
  | asset :: rest =>
      match custom_get_price o asset with
      | .error e => .error e
      | .ok q =>
          match custom_quotations_loop o rest with
          | .error e => .error e
          | .ok qs => .ok (q :: qs)

/-- `PriceApiImpl::get_custom_quotations`: filter for custom-supported assets
and quote them one by one. -/
def get_custom_quotations (o : Oracle) (assets : List AssetSpecifier) :
    Except String (List Quotation) :=
  let custom_assets := assets.filter (fun asset => custom_is_supported asset)
  custom_quotations_loop o custom_assets

/-- `PriceApiImpl::get_quotations`: extend the result with each category's
quotations when that category returned `Ok`, ignoring its error otherwise;
the call itself always returns `Ok`. -/
def get_quotations (o : Oracle) (assets : List AssetSpecifier) :
    Except String (List Quotation) :=
  let quotations : List Quotation := []
  let quotations := match get_fiat_quotations o assets with
    | .ok fiat_quotes => quotations ++ fiat_quotes
    | .error _ => quotations
  let quotations := match get_crypto_quotations o assets with
    | .ok crypto_quotes => quotations ++ crypto_quotes
    | .error _ => quotations
  let quotations := match get_custom_quotations o assets with
    | .ok custom_quotes => quotations ++ custom_quotes
    | .error _ => quotations
  .ok quotations

/-- The list carried by an `Ok` result, or the empty list for an error
(`unwrap_or_default`). -/
def okD (r : Except String (List Quotation)) : List Quotation :=
  match r with
  | .ok l => l
  | .error _ => []

/-! Update scheduler (`src/dia-batching-server/src/price_updater.rs`). -/

/-- `convert_to_coin_info` from `price_updater.rs`. -/
def convert_to_coin_info (value : Quotation) : Except ConvertingError CoinInfo :=
  match convert_decimal_to_u128 value.price with
  | .error e => .error e
  | .ok price =>
      .ok { name := value.name, symbol := value.symbol,
            blockchain := value.blockchain.getD "FIAT",
            price := price, last_update_timestamp := value.time, supply := 0 }

/-- `update_prices` from `price_updater.rs`: fetch quotations
(`unwrap_or_default` on the result), convert each (errors are logged and
skipped), and replace the storage with the converted records. -/
def update_prices (o : Oracle) (supported_currencies : List AssetSpecifier)
    (coins : CoinInfoStorage) : CoinInfoStorage :=
  let currencies := (okD (get_quotations o supported_currencies)).foldl
    (fun currencies quotation =>
      match convert_to_coin_info quotation with
      | .ok coin_info => currencies ++ [coin_info]
      | .error _ => currencies) []
  replace_currencies_by_symbols coins currencies

/-- The sleep computed at the end of each loop iteration of
`run_update_prices_loop`: `update_interval.saturating_sub(elapsed)`, with
durations modelled as `Nat` (`Nat` subtraction is saturating). -/
def sleep_duration (update_interval elapsed : Nat) : Nat := update_interval - elapsed

/-! Concrete fixtures for counterexamples and witnesses. -/

/-- The ARS blue-dollar asset (`arsb.rs`: blockchain `FIAT`, symbol
`ARS-USD`). -/
def arsAsset : AssetSpecifier := { blockchain := "FIAT", symbol := "ARS-USD" }

/-- The AMPE asset (`ampe.rs`: blockchain `Amplitude`, symbol `AMPE`). -/
def ampeAsset : AssetSpecifier := { blockchain := "Amplitude", symbol := "AMPE" }

/-- The BRL-USD fiat asset. -/
def brlAsset : AssetSpecifier := { blockchain := "FIAT", symbol := "BRL-USD" }

/-- A ticker whose last-quote bid is `b` and whose previous-day close is
`c`. -/
def mkTicker (name : String) (b c : Rat) : Ticker :=
  { ticker_name := name, updated := 0,
    last_quote := { a := 0, b := b, t := 0 },
    prev_day := { c := c, h := 0, l := 0, o := 0, v := 0, vw := 0 } }

/-- A cycle in which every provider succeeds: polygon returns a bid of 1 for
`C:ARSUSD`, and Binance quotes `USDTARS` at 100. -/
def oracleBoth : Oracle :=
  { all_tickers := fun _ => .ok [("C:ARSUSD", mkTicker "C:ARSUSD" 1 0)],
    coingecko_prices := fun _ => .ok [],
    ampe_eth_price := .ok 1,
    binance_usdt_ars := .ok { symbol := "USDTARS", name := "USDTARS", blockchain := some "Binance",
                              price := 100, supply := 0, time := 0 },
    now := 0 }

/-- A cycle in which the AMPE fetch fails while every other provider
succeeds (Binance quotes `USDTARS` at 2). -/
def oracleAmpeFails : Oracle :=
  { all_tickers := fun _ => .ok [],
    coingecko_prices := fun _ => .ok [],
    ampe_eth_price := .error "boom",
    binance_usdt_ars := .ok { symbol := "USDTARS", name := "USDTARS", blockchain := some "Binance",
                              price := 2, supply := 0, time := 0 },
    now := 0 }

/-- A cycle in which Binance quotes `USDTARS` at exactly 0. -/
def oracleZeroArs : Oracle :=
  { all_tickers := fun _ => .ok [],
    coingecko_prices := fun _ => .ok [],
    ampe_eth_price := .ok 1,
    binance_usdt_ars := .ok { symbol := "USDTARS", name := "USDTARS", blockchain := some "Binance",
                              price := 0, supply := 0, time := 0 },
    now := 7 }

/-- A cycle in which the `C:BRLUSD` ticker comes back with a zero bid and a
negative previous-day close. -/
def oracleNegClose : Oracle :=
  { all_tickers := fun _ => .ok [("C:BRLUSD", mkTicker "C:BRLUSD" 0 (-1))],
    coingecko_prices := fun _ => .ok [],
    ampe_eth_price := .ok 1,
    binance_usdt_ars := .ok { symbol := "USDTARS", name := "USDTARS", blockchain := some "Binance",
                              price := 2, supply := 0, time := 0 },
    now := 0 }

instance {ε α : Type} [DecidableEq ε] [DecidableEq α] : DecidableEq (Except ε α) := fun x y =>
  match x, y with
  | .error a, .error b =>
      if h : a = b then .isTrue (by rw [h]) else .isFalse (by simp [h])
  | .ok a, .ok b =>
      if h : a = b then .isTrue (by rw [h]) else .isFalse (by simp [h])
  | .error _, .ok _ => .isFalse (by simp)
  | .ok _, .error _ => .isFalse (by simp)

/-! Helper lemmas about the association-list map. -/

theorem lookupA_insertA_self {α β : Type} [DecidableEq α] (m : List (α × β)) (k : α) (v : β) :
    lookupA (insertA m k v) k = some v := by
  induction m with
  | nil => simp [insertA, lookupA]
  | cons hd tl ih =>
      obtain ⟨k', v'⟩ := hd
      by_cases h : k' = k
      · simp [insertA, lookupA, h]
      · simp [insertA, lookupA, h, ih]

theorem lookupA_insertA_ne {α β : Type} [DecidableEq α] (m : List (α × β)) (k k' : α) (v : β)
    (h : k' ≠ k) : lookupA (insertA m k' v) k = lookupA m k := by
  induction m with
  | nil => simp [insertA, lookupA, h]
  | cons hd tl ih =>
      obtain ⟨k₀, v₀⟩ := hd
      by_cases h₀ : k₀ = k'
      · subst h₀
        simp [insertA, lookupA, h]
      · by_cases h₁ : k₀ = k
        · simp [insertA, lookupA, h₀, h₁, Ne.symm h]
        · simp [insertA, lookupA, h₀, h₁, ih]

/-- Looking up a key after folding a record list into a map finds the latest
record with that key, falling back to the starting map. -/
theorem lookupA_foldl_insert {α β : Type} [DecidableEq α] (key : β → α)
    (l : List β) (m : List (α × β)) (k : α) :
    lookupA (l.foldl (fun m x => insertA m (key x) x) m) k =
      match l.reverse.find? (fun x => decide (key x = k)) with
      | some x => some x
      | none => lookupA m k := by
  induction l generalizing m with
  | nil => simp
  | cons hd tl ih =>
      simp only [List.foldl_cons, List.reverse_cons, List.find?_append]
      rw [ih]
      cases htl : tl.reverse.find? (fun x => decide (key x = k)) with
      | some x => simp [htl]
      | none =>
          simp only [htl, Option.none_orElse]
          by_cases hk : key hd = k
          · subst hk
            simp [List.find?, lookupA_insertA_self]
          · simp [List.find?, hk, lookupA_insertA_ne _ _ _ _ hk]

/-- Keys of an inserted map: unchanged when the key was present, the key
appended otherwise. -/
theorem map_fst_insertA {α β : Type} [DecidableEq α] (m : List (α × β)) (k : α) (v : β) :
    (insertA m k v).map Prod.fst =
      if k ∈ m.map Prod.fst then m.map Prod.fst else m.map Prod.fst ++ [k] := by
  induction m with
  | nil => simp [insertA]
  | cons hd tl ih =>
      obtain ⟨k₀, v₀⟩ := hd
      by_cases h₀ : k₀ = k
      · subst h₀
        simp [insertA]
      · simp only [insertA, if_neg h₀, List.map_cons, ih, List.mem_cons]
        by_cases h₁ : k ∈ tl.map Prod.fst
        · simp [h₁, Ne.symm h₀]
        · simp [h₁, Ne.symm h₀]

theorem keys_nodup_insertA {α β : Type} [DecidableEq α] (m : List (α × β)) (k : α) (v : β)
    (h : (m.map Prod.fst).Nodup) : ((insertA m k v).map Prod.fst).Nodup := by
  rw [map_fst_insertA]
  by_cases h₁ : k ∈ m.map Prod.fst
  · simpa [h₁]
  · rw [if_neg h₁, List.nodup_append]
    refine ⟨h, List.nodup_singleton k, ?_⟩
    intro a ha hb
    rw [List.mem_singleton] at hb
    subst hb
    exact h₁ ha

theorem keys_nodup_foldl_insert {α β : Type} [DecidableEq α] (key : β → α)
    (l : List β) (m : List (α × β)) (h : (m.map Prod.fst).Nodup) :
    (((l.foldl (fun m x => insertA m (key x) x) m)).map Prod.fst).Nodup := by
  induction l generalizing m with
  | nil => simpa
  | cons hd tl ih => exact ih _ (keys_nodup_insertA _ _ _ h)

/-! Helper lemmas about folds used by `update_prices` and
`polygon_get_prices`. -/

/-- The convert-and-push fold of `update_prices` keeps exactly the
successfully converted records, in order. -/
theorem foldl_convert_eq_filterMap (l : List Quotation) (init : List CoinInfo) :
    l.foldl (fun currencies quotation =>
        match convert_to_coin_info quotation with
        | .ok coin_info => currencies ++ [coin_info]
        | .error _ => currencies) init
      = init ++ l.filterMap (fun q => (convert_to_coin_info q).toOption) := by
  induction l generalizing init with
  | nil => simp
  | cons hd tl ih =>
      cases h : convert_to_coin_info hd with
      | ok c => simp [h, ih, Except.toOption]
      | error e => simp [h, ih, Except.toOption]

/-- Unfolding of `convert_to_coin_info` on a successfully converted price. -/
theorem convert_to_coin_info_ok (value : Quotation) (p : Nat)
    (h : convert_decimal_to_u128 value.price = .ok p) :
    convert_to_coin_info value =
      .ok { name := value.name, symbol := value.symbol,
            blockchain := value.blockchain.getD "FIAT", price := p,
            last_update_timestamp := value.time, supply := 0 } := by
  simp only [convert_to_coin_info, h]

/-- Peeling the initial accumulator off an append-style fold. -/
theorem foldl_append_init {α β : Type} (g : α → List β) (l : List α) (init : List β) :
    l.foldl (fun acc x => acc ++ g x) init
      = init ++ l.foldl (fun acc x => acc ++ g x) [] := by
  induction l generalizing init with
  | nil => simp
  | cons hd tl ih =>
      simp only [List.foldl_cons, List.nil_append]
      rw [ih (init ++ g hd), ih (g hd), List.append_assoc]

/-- Membership in an append-style fold comes from the initial accumulator or
from one of the folded elements. -/
theorem mem_foldl_append {α β : Type} (g : α → List β) (l : List α) (init : List β) (q : β)
    (h : q ∈ l.foldl (fun acc x => acc ++ g x) init) :
    q ∈ init ∨ ∃ x ∈ l, q ∈ g x := by
  induction l generalizing init with
  | nil => exact Or.inl h
  | cons hd tl ih =>
      rcases ih (init ++ g hd) h with h' | ⟨x, hx, hq⟩
      · rcases List.mem_append.1 h' with h'' | h''
        · exact Or.inl h''
        · exact Or.inr ⟨hd, List.mem_cons_self hd tl, h''⟩
      · exact Or.inr ⟨x, List.mem_cons_of_mem hd hx, hq⟩

/-- A map with nodup keys holds at most one entry per key. -/
theorem countP_key_le_one_of_nodup {α β : Type} [DecidableEq α] (m : List (α × β)) (k : α)
    (h : (m.map Prod.fst).Nodup) : m.countP (fun e => decide (e.1 = k)) ≤ 1 := by
  induction m with
  | nil => simp
  | cons hd tl ih =>
      obtain ⟨k₀, v₀⟩ := hd
      simp only [List.map_cons, List.nodup_cons] at h
      by_cases hk : k₀ = k
      · subst hk
        have hz : tl.countP (fun e => decide (e.1 = k₀)) = 0 := by
          rw [List.countP_eq_zero]
          intro e he
          simp only [decide_eq_true_eq]
          intro heq
          exact h.1 (heq ▸ List.mem_map_of_mem Prod.fst he)
        rw [List.countP_cons]
        simp [hz]
      · rw [List.countP_cons]
        simpa [hk] using ih h.2

/-- The dispatcher's output is always the concatenation of the three
categories' successful results. -/
theorem get_quotations_eq_concat (o : Oracle) (assets : List AssetSpecifier) :
    get_quotations o assets =
      .ok (okD (get_fiat_quotations o assets) ++ okD (get_crypto_quotations o assets) ++
        okD (get_custom_quotations o assets)) := by
  simp only [get_quotations, okD]
  cases get_fiat_quotations o assets <;> cases get_crypto_quotations o assets <;>
    cases get_custom_quotations o assets <;> simp

/-- Any quotation produced for one returned ticker carries the selected price
(bid if strictly positive, else previous-day close), and that price is not
zero. -/
theorem polygon_ticker_quotes_mem (m : List (String × AssetSpecifier)) (now : Nat)
    (p : String × Ticker) (q : Quotation) (h : q ∈ polygon_ticker_quotes m now p) :
    q.price = (if 0 < p.2.last_quote.b then p.2.last_quote.b else p.2.prev_day.c) ∧
    q.price ≠ 0 := by
  simp only [polygon_ticker_quotes] at h
  cases hl : lookupA m p.1 with
  | none => rw [hl] at h; simp at h
  | some asset =>
      rw [hl] at h
      simp only at h
      by_cases hz : (if 0 < p.2.last_quote.b then p.2.last_quote.b else p.2.prev_day.c) = 0
      · rw [if_pos hz] at h
        simp at h
      · rw [if_neg hz] at h
        rw [List.mem_singleton] at h
        subst h
        exact ⟨rfl, hz⟩

/-- Every quotation in a successful polygon batch has a nonzero price. -/
theorem polygon_get_prices_ne_zero
    (all_tickers : List String → Except String (List (String × Ticker))) (now : Nat)
    (assets : List AssetSpecifier) (l : List Quotation) (q : Quotation)
    (hok : polygon_get_prices all_tickers now assets = .ok l) (hq : q ∈ l) : q.price ≠ 0 := by
  simp only [polygon_get_prices] at hok
  cases hT : all_tickers (polygon_request assets).2 with
  | error e => rw [hT] at hok; exact absurd hok (by simp)
  | ok quotes =>
      rw [hT] at hok
      simp only [Except.ok.injEq] at hok
      subst hok
      rcases mem_foldl_append _ _ _ _ hq with hinit | ⟨p, _, hmem⟩
      · by_cases hc : (polygon_request assets).2.contains (currency_to_ticker "USD")
        · rw [if_pos hc, List.mem_singleton] at hinit
          subst hinit
          simp
        · rw [if_neg hc] at hinit
          simp at hinit
      · exact (polygon_ticker_quotes_mem _ _ _ _ hmem).2

/-- The cycle always replaces the snapshot with the successfully converted
records of the fetched quotations. -/
theorem update_prices_eq (o : Oracle) (assets : List AssetSpecifier) (st : CoinInfoStorage) :
    update_prices o assets st =
      replace_currencies_by_symbols st
        ((okD (get_quotations o assets)).filterMap
          (fun q => (convert_to_coin_info q).toOption)) := by
  unfold update_prices
  rw [foldl_convert_eq_filterMap]
  simp

/-- The last replaced record is found under its own key. -/
theorem lookupA_replace_snoc (st : CoinInfoStorage) (l : List CoinInfo) (c : CoinInfo) :
    lookupA ((replace_currencies_by_symbols st (l ++ [c])).currencies_by_blockchain_and_symbol)
      (coinKey c) = some c := by
  rw [replace_currencies_by_symbols, lookupA_foldl_insert coinKey (l ++ [c]) [] (coinKey c)]
  rw [List.reverse_append]
  simp [List.find?]

/-- A cycle whose custom category produced exactly one (successfully
converting) quotation publishes its record under its key, whatever the other
categories returned. -/
theorem cycle_publishes_last (o : Oracle) (assets : List AssetSpecifier) (st : CoinInfoStorage)
    (q : Quotation) (c : CoinInfo)
    (hcust : get_custom_quotations o assets = .ok [q])
    (hconv : convert_to_coin_info q = .ok c) :
    lookupA ((update_prices o assets st).currencies_by_blockchain_and_symbol) (coinKey c)
      = some c := by
  rw [update_prices_eq]
  have h3 := get_quotations_eq_concat o assets
  rw [hcust] at h3
  rw [h3]
  simp only [okD]
  rw [List.filterMap_append]
  have h4 : [q].filterMap (fun q => (convert_to_coin_info q).toOption) = [c] := by
    simp [hconv, Except.toOption]
  rw [h4]
  exact lookupA_replace_snoc st _ c

/-! Helper lemmas for the fiat support characterization. -/

theorem splitOnChar_ne_nil (c : Char) (l : List Char) : splitOnChar c l ≠ [] := by
  induction l with
  | nil => simp [splitOnChar]
  | cons x xs ih =>
      by_cases hx : x = c
      · simp [splitOnChar, hx]
      · simp only [splitOnChar, if_neg hx]
        cases hsp : splitOnChar c xs with
        | nil => simp
        | cons y ys => simp

theorem splitOnChar_of_not_mem {c : Char} {l : List Char} (h : c ∉ l) :
    splitOnChar c l = [l] := by
  induction l with
  | nil => rfl
  | cons x xs ih =>
      have hx : x ≠ c := fun hx => h (hx ▸ List.mem_cons_self x xs)
      have hxs : c ∉ xs := fun hm => h (List.mem_cons_of_mem x hm)
      simp only [splitOnChar, if_neg hx, ih hxs]

theorem splitOnChar_append {c : Char} {f : List Char} (hf : c ∉ f) (t : List Char) :
    splitOnChar c (f ++ c :: t) = f :: splitOnChar c t := by
  induction f with
  | nil => simp [splitOnChar]
  | cons x xs ih =>
      have hx : x ≠ c := fun hx => hf (hx ▸ List.mem_cons_self x xs)
      have hxs : c ∉ xs := fun hm => hf (List.mem_cons_of_mem x hm)
      rw [List.cons_append, splitOnChar, if_neg hx, ih hxs]

theorem splitOnChar_singleton_inv {c : Char} {l m : List Char}
    (h : splitOnChar c l = [m]) : l = m ∧ c ∉ l := by
  induction l generalizing m with
  | nil =>
      simp only [splitOnChar, List.cons.injEq] at h
      obtain ⟨hm, -⟩ := h
      exact ⟨hm, by simp⟩
  | cons x xs ih =>
      by_cases hx : x = c
      · rw [splitOnChar, if_pos hx] at h
        simp only [List.cons.injEq] at h
        exact absurd h.2 (splitOnChar_ne_nil c xs)
      · rw [splitOnChar, if_neg hx] at h
        cases hsp : splitOnChar c xs with
        | nil => exact absurd hsp (splitOnChar_ne_nil c xs)
        | cons y ys =>
            rw [hsp] at h
            simp only [List.cons.injEq] at h
            obtain ⟨hm, hys⟩ := h
            subst hys
            obtain ⟨hxs, hc⟩ := ih hsp
            subst hxs
            subst hm
            exact ⟨rfl, by simp [hc, Ne.symm hx]⟩

theorem splitOnChar_pair_inv {c : Char} {l f t : List Char}
    (h : splitOnChar c l = [f, t]) : l = f ++ c :: t ∧ c ∉ f ∧ c ∉ t := by
  induction l generalizing f with
  | nil => simp [splitOnChar] at h
  | cons x xs ih =>
      by_cases hx : x = c
      · rw [splitOnChar, if_pos hx] at h
        simp only [List.cons.injEq] at h
        obtain ⟨hf, hrest⟩ := h
        subst hf
        obtain ⟨hxs, hc⟩ := splitOnChar_singleton_inv hrest
        subst hxs
        subst hx
        exact ⟨rfl, by simp, hc⟩
      · rw [splitOnChar, if_neg hx] at h
        cases hsp : splitOnChar c xs with
        | nil => exact absurd hsp (splitOnChar_ne_nil c xs)
        | cons y ys =>
            rw [hsp] at h
            simp only [List.cons.injEq] at h
            obtain ⟨hf, hys⟩ := h
            subst hf
            have hsp2 : splitOnChar c xs = [y, t] := by rw [hsp, hys]
            obtain ⟨hxs, hcy, hct⟩ := ih hsp2
            subst hxs
            exact ⟨by simp, by simp [hcy, Ne.symm hx], hct⟩

theorem extract_isSome_iff (a : AssetSpecifier) :
    polygon_is_supported a = true ↔
      (toUppercase a.blockchain = "FIAT" ∧ ∃ f t : List Char,
        a.symbol.data = f ++ '-' :: t ∧ '-' ∉ f ∧ '-' ∉ t ∧
        toUppercase (String.mk t) = "USD") := by
  unfold polygon_is_supported extract_source_currency
  by_cases hb : toUppercase a.blockchain = "FIAT"
  · rw [if_neg (not_not_intro hb)]
    constructor
    · intro h
      refine ⟨hb, ?_⟩
      cases hsp : splitOnChar '-' a.symbol.data with
      | nil => exact absurd hsp (splitOnChar_ne_nil _ _)
      | cons y ys =>
          rw [hsp] at h
          cases ys with
          | nil => simp at h
          | cons tc ts =>
              cases ts with
              | nil =>
                  obtain ⟨hdata, hcf, hct⟩ := splitOnChar_pair_inv hsp
                  by_cases husd : toUppercase (String.mk tc) = "USD"
                  · exact ⟨y, tc, hdata, hcf, hct, husd⟩
                  · simp [husd] at h
              | cons t3 ts3 => simp at h
    · rintro ⟨-, f, t, hdata, hcf, hct, husd⟩
      rw [hdata, splitOnChar_append hcf t, splitOnChar_of_not_mem hct]
      simp [husd]
  · rw [if_pos hb]
    simp [hb]

/-- A requested `USD-USD` asset yields a price-1 quotation at the head of the
fiat batch whenever the batched ticker call succeeds. -/
theorem polygon_get_prices_usd
    (all_tickers : List String → Except String (List (String × Ticker))) (now : Nat)
    (quotes : List (String × Ticker)) (hq : all_tickers ["C:USDUSD"] = .ok quotes) :
    ∃ rest, polygon_get_prices all_tickers now [{ blockchain := "FIAT", symbol := "USD-USD" }] =
      .ok ({ symbol := "USD-USD", name := "USD-USD", blockchain := some "FIAT",
             price := 1, supply := 0, time := now } :: rest) := by
  have hreq : polygon_request [{ blockchain := "FIAT", symbol := "USD-USD" }] =
      ([("C:USDUSD", { blockchain := "FIAT", symbol := "USD-USD" })], ["C:USDUSD"]) := by
    decide
  refine ⟨quotes.foldl (fun prices p =>
      prices ++ polygon_ticker_quotes
        [("C:USDUSD", { blockchain := "FIAT", symbol := "USD-USD" })] now p) [], ?_⟩
  simp only [polygon_get_prices, hreq, hq]
  rw [show ((["C:USDUSD"] : List String).contains (currency_to_ticker "USD")) = true from rfl]
  rw [if_pos rfl]
  rw [foldl_append_init]
  rw [List.singleton_append]

/-! Claim theorems. -/

/-- Claim C9: the sleep before the next cycle is
`max(0, configured_interval - elapsed)`; in particular it is exactly zero
(never negative) whenever the processing time reached the interval. -/
theorem sleep_duration_never_negative (update_interval elapsed : Nat) :
    ((sleep_duration update_interval elapsed : Int) =
      max 0 ((update_interval : Int) - (elapsed : Int))) ∧
    (update_interval ≤ elapsed → sleep_duration update_interval elapsed = 0) := by
  constructor
  · simp only [sleep_duration]
    omega
  · intro h
    simp only [sleep_duration]
    omega

/-- Witness for C9 at interval 2, elapsed 5. -/
theorem sleep_duration_never_negative_witness :
    2 ≤ 5 ∧ sleep_duration 2 5 = 0 :=
  ⟨by decide, (sleep_duration_never_negative 2 5).2 (by decide)⟩

/-- Claim C10: after a replace, a key resolves to the record occurring latest
in the supplied list with that key, and every snapshot holds at most one
entry per key. -/
theorem replace_duplicate_keys_last_wins (st : CoinInfoStorage) (records : List CoinInfo)
    (k : String × String) :
    lookupA ((replace_currencies_by_symbols st records).currencies_by_blockchain_and_symbol) k
      = records.reverse.find? (fun c => decide (coinKey c = k)) ∧
    ((replace_currencies_by_symbols st records).currencies_by_blockchain_and_symbol.countP
      (fun e => decide (e.1 = k))) ≤ 1 := by
  constructor
  · rw [replace_currencies_by_symbols, lookupA_foldl_insert coinKey records [] k]
    cases records.reverse.find? (fun c => decide (coinKey c = k)) <;> simp [lookupA]
  · have hnodup := keys_nodup_foldl_insert coinKey records [] (by simp)
    rw [replace_currencies_by_symbols]
    exact countP_key_le_one_of_nodup _ k hnodup

/-- Claim C4: after a replace, looking up any list of specifiers returns
exactly the latest replaced record per requested key, silently omitting keys
not supplied in the most recent replace (regardless of any previous snapshot
contents). -/
theorem lookup_returns_latest_replace_only (st : CoinInfoStorage) (records : List CoinInfo)
    (specs : List AssetSpecifier) :
    (get_currencies_by_blockchains_and_symbols (replace_currencies_by_symbols st records) specs
      = specs.filterMap (fun a =>
          records.reverse.find? (fun c => decide (coinKey c = (a.blockchain, a.symbol))))) ∧
    (∀ a : AssetSpecifier, (∀ c ∈ records, coinKey c ≠ (a.blockchain, a.symbol)) →
      get_currencies_by_blockchains_and_symbols (replace_currencies_by_symbols st records) [a]
        = []) := by
  have hlook : ∀ a : AssetSpecifier,
      lookupA ((replace_currencies_by_symbols st records).currencies_by_blockchain_and_symbol)
          (a.blockchain, a.symbol)
        = records.reverse.find? (fun c => decide (coinKey c = (a.blockchain, a.symbol))) := by
    intro a
    rw [replace_currencies_by_symbols,
      lookupA_foldl_insert coinKey records [] (a.blockchain, a.symbol)]
    cases records.reverse.find? (fun c => decide (coinKey c = (a.blockchain, a.symbol))) <;>
      simp [lookupA]
  constructor
  · unfold get_currencies_by_blockchains_and_symbols
    exact List.filterMap_congr (fun a _ => hlook a)
  · intro a ha
    unfold get_currencies_by_blockchains_and_symbols
    rw [List.filterMap_cons, hlook a]
    have : records.reverse.find? (fun c => decide (coinKey c = (a.blockchain, a.symbol))) = none := by
      rw [List.find?_eq_none]
      intro c hc
      simpa using ha c (List.mem_reverse.1 hc)
    simp [this]

/-- Witness for C4: a key absent from the replaced records yields nothing. -/
theorem lookup_returns_latest_replace_only_witness :
    (∀ c ∈ [({ symbol := "BTC", name := "BTC", blockchain := "Bitcoin", supply := 0,
               last_update_timestamp := 0, price := 5 } : CoinInfo)],
      coinKey c ≠ ("Ethereum", "ETH")) ∧
    get_currencies_by_blockchains_and_symbols
      (replace_currencies_by_symbols ⟨[]⟩
        [{ symbol := "BTC", name := "BTC", blockchain := "Bitcoin", supply := 0,
           last_update_timestamp := 0, price := 5 }])
      [{ blockchain := "Ethereum", symbol := "ETH" }] = [] := by
  refine ⟨by decide, ?_⟩
  exact (lookup_returns_latest_replace_only ⟨[]⟩
      [{ symbol := "BTC", name := "BTC", blockchain := "Bitcoin", supply := 0,
         last_update_timestamp := 0, price := 5 }] []).2
    { blockchain := "Ethereum", symbol := "ETH" } (by decide)

/-- Claim C1, counterexample: the asset `{FIAT, ARS-USD}` is supported both
by the fiat conversion source and by the custom `ArsBluePriceView`; in a
cycle where both providers succeed, `get_quotations` returns two quotations
for it (the fiat category's and then the custom category's), refuting the
claimed priority exclusivity. -/
theorem ars_usd_two_quotations_counterexample :
    get_quotations oracleBoth [arsAsset] = .ok
      [{ symbol := "ARS-USD", name := "ARS-USD", blockchain := some "FIAT",
         price := 1, supply := 0, time := 0 },
       { symbol := "ARS-USD", name := "ARS-USD", blockchain := some "FIAT",
         price := 1 / 100, supply := 0, time := 0 }] ∧
    (okD (get_quotations oracleBoth [arsAsset])).countP (fun q => q.symbol == "ARS-USD") = 2 := by
  constructor
  · rfl
  · rfl

/-- Claim C1, amended: the dispatcher applies no priority ordering between
categories; each category independently filters the asset list and every
category whose support predicate accepts an asset contributes its quotation
(when its provider call succeeds), so an asset supported by several
categories — such as `{FIAT, ARS-USD}`, accepted by both the fiat source and
the custom registry — yields one quotation per succeeding category. -/
theorem get_quotations_no_priority_merge (o : Oracle) (assets : List AssetSpecifier) :
    get_quotations o assets =
      .ok (okD (get_fiat_quotations o assets) ++ okD (get_crypto_quotations o assets) ++
        okD (get_custom_quotations o assets)) ∧
    polygon_is_supported arsAsset = true ∧ custom_is_supported arsAsset = true :=
  ⟨get_quotations_eq_concat o assets, by decide, by decide⟩

/-- Claim C8, counterexample: with the AMPE fetch failing and Binance
succeeding, quoting `ARS-USD` alone succeeds, yet the dispatcher's merged
result for `[AMPE, ARS-USD]` is empty — the failure of one custom asset
dropped its sibling's quotation too, refuting per-asset isolation. -/
theorem custom_failure_not_per_asset_counterexample :
    custom_get_price oracleAmpeFails arsAsset =
      .ok { symbol := "ARS-USD", name := "ARS-USD", blockchain := some "FIAT",
            price := 1 / 2, supply := 0, time := 0 } ∧
    get_quotations oracleAmpeFails [ampeAsset, arsAsset] = .ok [] := by
  constructor
  · rfl
  · rfl

/-- Claim C8, amended: a failure while quoting any custom-supported asset
aborts the whole custom category for that cycle (the `?` operator propagates
the first error), so all custom-supported assets are dropped together; the
other categories' quotations still appear unchanged. -/
theorem custom_failure_batch_granularity (o : Oracle) (assets : List AssetSpecifier)
    (e : String) (h : get_custom_quotations o assets = .error e) :
    get_quotations o assets =
      .ok (okD (get_fiat_quotations o assets) ++ okD (get_crypto_quotations o assets)) := by
  rw [get_quotations_eq_concat o assets, h]
  simp [okD]

/-- Witness for the amended C8 at a cycle whose AMPE fetch fails. -/
theorem custom_failure_batch_granularity_witness :
    get_custom_quotations oracleAmpeFails [ampeAsset, arsAsset] = .error "boom" ∧
    get_quotations oracleAmpeFails [ampeAsset, arsAsset] =
      .ok (okD (get_fiat_quotations oracleAmpeFails [ampeAsset, arsAsset]) ++
        okD (get_crypto_quotations oracleAmpeFails [ampeAsset, arsAsset])) :=
  ⟨rfl, custom_failure_batch_granularity oracleAmpeFails [ampeAsset, arsAsset] "boom" rfl⟩

/-- Claim C5, counterexample: a ticker with a zero bid and a previous-day
close of -1 makes the fiat source emit a quotation priced -1 — the source
only drops a price equal to zero, so a negative previous-day close is
emitted, refuting "no zero or negative price is ever emitted". -/
theorem negative_prev_close_emitted_counterexample :
    get_fiat_quotations oracleNegClose [brlAsset] =
      .ok [{ symbol := "BRL-USD", name := "BRL-USD", blockchain := some "FIAT",
             price := -1, supply := 0, time := 0 }] := by
  with_unfolding_all rfl

/-- Claim C5, amended: for every returned ticker the fiat source selects the
most recent bid if strictly positive, else the previous-day close, and drops
the asset exactly when that selected price equals zero — so no zero-priced
quotation is ever emitted, but a negative previous-day close is emitted as a
negative price. -/
theorem polygon_price_selection (m : List (String × AssetSpecifier)) (now : Nat)
    (p : String × Ticker) (q : Quotation) (h : q ∈ polygon_ticker_quotes m now p) :
    (q.price = if 0 < p.2.last_quote.b then p.2.last_quote.b else p.2.prev_day.c) ∧
    q.price ≠ 0 ∧
    ∀ (all_tickers : List String → Except String (List (String × Ticker))) (now' : Nat)
      (assets : List AssetSpecifier) (l : List Quotation) (q' : Quotation),
      polygon_get_prices all_tickers now' assets = .ok l → q' ∈ l → q'.price ≠ 0 := by
  refine ⟨(polygon_ticker_quotes_mem m now p q h).1, (polygon_ticker_quotes_mem m now p q h).2,
    ?_⟩
  intro all_tickers now' assets l q' hok hq'
  exact polygon_get_prices_ne_zero all_tickers now' assets l q' hok hq'

/-- Witness for the amended C5: a positive bid of 2 is selected. -/
theorem polygon_price_selection_witness :
    ({ symbol := "BRL-USD", name := "BRL-USD", blockchain := some "FIAT",
       price := 2, supply := 0, time := 0 } : Quotation) ∈
      polygon_ticker_quotes [("C:BRLUSD", brlAsset)] 0 ("C:BRLUSD", mkTicker "C:BRLUSD" 2 0) ∧
    ({ symbol := "BRL-USD", name := "BRL-USD", blockchain := some "FIAT",
       price := 2, supply := 0, time := 0 } : Quotation).price =
      (if (0 : Rat) < (mkTicker "C:BRLUSD" 2 0).last_quote.b
        then (mkTicker "C:BRLUSD" 2 0).last_quote.b
        else (mkTicker "C:BRLUSD" 2 0).prev_day.c) := by
  refine ⟨by with_unfolding_all decide, ?_⟩
  exact (polygon_price_selection [("C:BRLUSD", brlAsset)] 0
    ("C:BRLUSD", mkTicker "C:BRLUSD" 2 0) _ (by with_unfolding_all decide)).1

/-- The quotation the ARS blue-dollar view produces when the Binance market
quote is zero. -/
def arsZeroQuote (now : Nat) : Quotation :=
  { symbol := "ARS-USD", name := "ARS-USD", blockchain := some "FIAT",
    price := 0, supply := 0, time := now }

/-- The published record corresponding to `arsZeroQuote`. -/
def arsZeroRecord (now : Nat) : CoinInfo :=
  { symbol := "ARS-USD", name := "ARS-USD", blockchain := "FIAT", supply := 0,
    last_update_timestamp := now, price := 0 }

/-- Core of claim C6: with a zero Binance quote, the reciprocal is zero, the
custom category wraps it into a quotation, and the cycle publishes the
zero-priced record into the snapshot. -/
theorem arsb_zero_cycle_lookup (o : Oracle) (qb : Quotation) (st : CoinInfoStorage)
    (hb : o.binance_usdt_ars = .ok qb) (hz : qb.price = 0) :
    arsb_get_price o = .ok (arsZeroQuote o.now) ∧
    lookupA ((update_prices o [arsAsset] st).currencies_by_blockchain_and_symbol)
        ("FIAT", "ARS-USD")
      = some (arsZeroRecord o.now) := by
  have h1 : arsb_get_price o = .ok (arsZeroQuote o.now) := by
    unfold arsb_get_price
    rw [hb]
    simp [checked_div, hz, arsZeroQuote]
  refine ⟨h1, ?_⟩
  have h2 : get_custom_quotations o [arsAsset] = .ok [arsZeroQuote o.now] := by
    unfold get_custom_quotations
    have hfilter : [arsAsset].filter (fun a => custom_is_supported a) = [arsAsset] := by decide
    rw [hfilter]
    have hcg : custom_get_price o arsAsset = arsb_get_price o := rfl
    simp only [custom_quotations_loop, hcg, h1]
  have hzero : convert_decimal_to_u128 (0 : Rat) = .ok 0 := by with_unfolding_all decide
  have hconv : convert_to_coin_info (arsZeroQuote o.now) = .ok (arsZeroRecord o.now) :=
    convert_to_coin_info_ok (arsZeroQuote o.now) 0 hzero
  exact cycle_publishes_last o [arsAsset] st (arsZeroQuote o.now) (arsZeroRecord o.now) h2 hconv

/-- Claim C6, counterexample: with Binance quoting `USDTARS` at 0, the cycle
publishes `ARS-USD` into the snapshot with fixed-point price 0 — the
zero-priced synthetic quotation is not dropped before the converter,
refuting "a zero price is never published in the snapshot". -/
theorem zero_reciprocal_published_counterexample :
    get_currencies_by_blockchains_and_symbols
        (update_prices oracleZeroArs [arsAsset] ⟨[]⟩) [arsAsset]
      = [{ symbol := "ARS-USD", name := "ARS-USD", blockchain := "FIAT", supply := 0,
           last_update_timestamp := 7, price := 0 }] := by
  have h := (arsb_zero_cycle_lookup oracleZeroArs
    { symbol := "USDTARS", name := "USDTARS", blockchain := some "Binance",
      price := 0, supply := 0, time := 0 } ⟨[]⟩ rfl rfl).2
  unfold get_currencies_by_blockchains_and_symbols
  rw [List.filterMap_cons]
  rw [show ((arsAsset.blockchain, arsAsset.symbol) : String × String) = ("FIAT", "ARS-USD")
    from rfl]
  rw [h]
  rfl

/-- Claim C6, amended: when the Binance market quote is zero the reciprocal
computation returns a quotation with price exactly zero (no failure), and
that zero-priced quotation is not filtered anywhere on the custom path: the
cycle converts it and publishes it in the snapshot with fixed-point price
0. -/
theorem zero_reciprocal_flows_to_snapshot (o : Oracle) (qb : Quotation) (st : CoinInfoStorage)
    (hb : o.binance_usdt_ars = .ok qb) (hz : qb.price = 0) :
    arsb_get_price o = .ok (arsZeroQuote o.now) ∧
    lookupA ((update_prices o [arsAsset] st).currencies_by_blockchain_and_symbol)
        ("FIAT", "ARS-USD")
      = some (arsZeroRecord o.now) :=
  arsb_zero_cycle_lookup o qb st hb hz

/-- Witness for the amended C6 at the concrete zero-quote cycle. -/
theorem zero_reciprocal_flows_to_snapshot_witness :
    oracleZeroArs.binance_usdt_ars =
      .ok { symbol := "USDTARS", name := "USDTARS", blockchain := some "Binance",
            price := 0, supply := 0, time := 0 } ∧
    lookupA ((update_prices oracleZeroArs [arsAsset] ⟨[]⟩).currencies_by_blockchain_and_symbol)
        ("FIAT", "ARS-USD")
      = some (arsZeroRecord oracleZeroArs.now) :=
  ⟨rfl, (zero_reciprocal_flows_to_snapshot oracleZeroArs
      { symbol := "USDTARS", name := "USDTARS", blockchain := some "Binance",
        price := 0, supply := 0, time := 0 } ⟨[]⟩ rfl rfl).2⟩

/-- Claim C7: the fiat source supports exactly the assets with blockchain
`FIAT` (case-insensitive) whose symbol splits on `-` into exactly two parts
with target `USD` (case-insensitive), extracting the upper-cased source
currency; `BRL-USD` is supported with extracted source `BRL`, `BRL-EUR` and
`BRLUSD` are rejected, and a requested `USD-USD` asset yields a quotation
with price exactly 1. -/
theorem fiat_support_characterization (a : AssetSpecifier)
    (all_tickers : List String → Except String (List (String × Ticker))) (now : Nat)
    (quotes : List (String × Ticker)) (hq : all_tickers ["C:USDUSD"] = .ok quotes) :
    (polygon_is_supported a = true ↔
      (toUppercase a.blockchain = "FIAT" ∧ ∃ f t : List Char,
        a.symbol.data = f ++ '-' :: t ∧ '-' ∉ f ∧ '-' ∉ t ∧
        toUppercase (String.mk t) = "USD")) ∧
    extract_source_currency { blockchain := "FIAT", symbol := "BRL-USD" } = some "BRL" ∧
    polygon_is_supported { blockchain := "FIAT", symbol := "BRL-EUR" } = false ∧
    polygon_is_supported { blockchain := "FIAT", symbol := "BRLUSD" } = false ∧
    (∃ rest, polygon_get_prices all_tickers now [{ blockchain := "FIAT", symbol := "USD-USD" }] =
      .ok ({ symbol := "USD-USD", name := "USD-USD", blockchain := some "FIAT",
             price := 1, supply := 0, time := now } :: rest)) :=
  ⟨extract_isSome_iff a, by decide, by decide, by decide,
    polygon_get_prices_usd all_tickers now quotes hq⟩

/-- Witness for C7 at the supported asset `BRL-USD`. -/
theorem fiat_support_characterization_witness :
    ((fun _ : List String => (Except.ok [] : Except String (List (String × Ticker)))) ["C:USDUSD"]
      = .ok []) ∧
    polygon_is_supported { blockchain := "FIAT", symbol := "BRL-USD" } = true :=
  ⟨rfl, (fiat_support_characterization { blockchain := "FIAT", symbol := "BRL-USD" }
      (fun _ => .ok []) 0 [] rfl).1.mpr
    ⟨by decide, "BRL".data, "USD".data, by decide, by decide, by decide, by decide⟩⟩

end DiaOracle
